import Mathlib

set_option maxRecDepth 100000
set_option maxHeartbeats 1600000

/-!
Shallow embedding of the CSet library (src/cset.c, src/cset.h).

The C library stores a set as a sorted contiguous array of fixed-size
slots together with three client capabilities (compare, cleanup,
toString).  We model the live slots `elements[0 .. n_elements)` as a
`List α`, the comparator as `α → α → Int`, the optional cleanup callback
as a presence flag `has_cleanup` (its side effects are reported as
explicit traces where an operation invokes it), and the optional
toString callback as `Option (α → String)`.  Machine integers are
modelled as `Nat`/`Int`; none of the verified paths depends on overflow
(`n_elements` is an `int` that only counts elements, `capacity` a
`size_t`).  A possibly-NULL `CSet*` is `Option (CSet α)`; abnormal
termination (failed `assert`, dereference of NULL) is `Except.error`.
-/

/-- The `struct CSetImplementation` record of cset.c.  `n_elements` is
`elements.length`; the raw buffer beyond the live slots is not observable
and is not modelled.  The client callbacks `cmp_fn` and `toString_fn` are
modelled as Lean functions; `cleanup_fn` only by whether it is non-NULL,
since its effect on client memory is opaque to the library. -/
structure CSet (α : Type) where
  elements : List α
  elemsz : Nat
  capacity : Nat
  cmp_fn : α → α → Int
  has_cleanup : Bool
  toString_fn : Option (α → String)

/-- Reading slot `i` of the element array (`nth` in cset.c) at an `int`
index.  An index outside the live region reads unspecified memory in C;
the model returns the default `d` there.  All reachable probes are proved
to stay inside the live region, so the default never matters. -/
def nthI {α : Type} (l : List α) (d : α) (i : Int) : α :=
  if h : 0 ≤ i ∧ i < (l.length : Int) then l.get ⟨i.toNat, by omega⟩ else d

/-- `insert` of cset.c: memmove the slots from `i` up one position and
memcpy `x` into slot `i`.  (For `i > length` the C code would corrupt
memory; `cset_add` is proved to always pass `i ≤ length`.) -/
def insertAt {α : Type} (l : List α) (x : α) (i : Nat) : List α :=
  l.take i ++ x :: l.drop i

/-- `check_resize` of cset.c: double the capacity once
`n_elements >= capacity - 1` (the element data is preserved by
`realloc`). -/
def check_resize {α : Type} (s : CSet α) : CSet α :=
  if s.capacity - 1 ≤ s.elements.length then { s with capacity := s.capacity * 2 } else s

/-- `cset_create`.  A zero `capacity_hint` selects the default capacity
32 (`DEFAULT_CAPACITY`).  The C `assert(cmp_fn != NULL)` is inherent
here: `cmp_fn` is a total Lean function. -/
def cset_create {α : Type} (elemsz capacity_hint : Nat) (cmp_fn : α → α → Int)
    (has_cleanup : Bool) (toString_fn : Option (α → String)) : CSet α :=
  { elements := []
    elemsz := elemsz
    capacity := if capacity_hint = 0 then 32 else capacity_hint
    cmp_fn := cmp_fn
    has_cleanup := has_cleanup
    toString_fn := toString_fn }

/-- One structural presentation of the binary-search phase of
`cset_add`, with an explicit iteration budget: the loop body runs while
`1 < partial_sz` and `fuel` remains; `partial_sz` at least halves each
iteration, so a budget of `p` iterations is more than the loop can ever
use (`addLoopF_irrel` below: exhaustion is unreachable from the actual
entry `fuel = p`, where `0` fuel forces `p = 0` and the loop guard is
already false). -/
def addLoopF {α : Type} (cmp : α → α → Int) (x : α) (l : List α) :
    Nat → Nat → Int → Option Int
  | 0, _, index => some index
  | fuel + 1, p, index =>
    if 1 < p then
      let c := cmp x (nthI l x index)
      let q := p / 2
      if c = 0 then none
      else if 0 < c then addLoopF cmp x l fuel q (index + ((q / 2 : Nat) : Int))
      else addLoopF cmp x l fuel q (index - ((q / 2 : Nat) : Int))
    else some index

/-- The binary-search phase of `cset_add`: starting from
`partial_sz = n_elements` and `index = n_elements / 2`, repeatedly probe
`nth(set, index)`, halve `partial_sz`, return `false` (here `none`) on an
equal probe, and otherwise move `index` by the halved `partial_sz / 2`.
The probed value is compared before `partial_sz` is halved, exactly as in
the C loop body. -/
def addLoop {α : Type} (cmp : α → α → Int) (x : α) (l : List α) (p : Nat) (index : Int) :
    Option Int :=
  addLoopF cmp x l p p index

/-- The trailing linear correction of `cset_add` with an explicit
iteration budget: advance while the new element is strictly greater than
the probed slot.  From a nonnegative entry index (every `cset_add` entry
is, see `cset_add_addLoop_some` and `scanLoopF_bounds`) the loop advances
at most `l.length` times, so the budget `l.length + 1` is never
exhausted. -/
def scanLoopF {α : Type} (cmp : α → α → Int) (x : α) (l : List α) :
    Nat → Int → Int
  | 0, index => index
  | fuel + 1, index =>
    if index < (l.length : Int) then
      if 0 < cmp x (nthI l x index) then scanLoopF cmp x l fuel (index + 1) else index
    else index

/-- The trailing linear correction of `cset_add`. -/
def scanLoop {α : Type} (cmp : α → α → Int) (x : α) (l : List α) (index : Int) : Int :=
  scanLoopF cmp x l (l.length + 1) index

/-- `cset_add`: binary-search phase, the `if(index == 1) index = 0;`
correction, the linear scan, resize check, insertion, and count
increment.  Returns the C `bool` result together with the updated set. -/
def cset_add {α : Type} (s : CSet α) (x : α) : Bool × CSet α :=
  let n := s.elements.length
  match addLoop s.cmp_fn x s.elements n ((n / 2 : Nat) : Int) with
  | none => (false, s)
  | some i0 =>
    let i1 : Int := if i0 = 1 then 0 else i0
    let i2 := scanLoop s.cmp_fn x s.elements i1
    let s1 := check_resize s
    (true, { s1 with elements := insertAt s1.elements x i2.toNat })

/-- The C library `bsearch` (standard halving implementation) with an
explicit iteration budget: search `l[lo..hi)` for a slot comparing equal
to `key`, returning its index.  The interval shrinks by at least one
each iteration, so the entry budget `hi - lo` is never exhausted
(`0` fuel forces `hi - lo = 0`, where the loop guard is already false
and both branches return `none`).  The `none` branch of the probe is
unreachable at every call site (`mid < hi ≤ l.length`). -/
def bsearchLoopF {α : Type} (cmp : α → α → Int) (key : α) (l : List α) :
    Nat → Nat → Nat → Option Nat
  | 0, _, _ => none
  | fuel + 1, lo, hi =>
    if lo < hi then
      let mid := (lo + hi) / 2
      match l.get? mid with
      | none => none
      | some y =>
        let c := cmp key y
        if c < 0 then bsearchLoopF cmp key l fuel lo mid
        else if 0 < c then bsearchLoopF cmp key l fuel (mid + 1) hi
        else some mid
    else none

/-- The C library `bsearch` over `l[lo..hi)`. -/
def bsearchLoop {α : Type} (cmp : α → α → Int) (key : α) (l : List α) (lo hi : Nat) :
    Option Nat :=
  bsearchLoopF cmp key l (hi - lo) lo hi

/-- `bsearch(elem, set->elements, set->n_elements, ...)`, returning the
index of the found slot (the C call returns its address). -/
def bsearchIdx {α : Type} (cmp : α → α → Int) (key : α) (l : List α) : Option Nat :=
  bsearchLoop cmp key l 0 l.length

/-- `cset_contains`: the `bsearch` result tested against NULL. -/
def cset_contains {α : Type} (s : CSet α) (x : α) : Bool :=
  (bsearchIdx s.cmp_fn x s.elements).isSome

/-- `cset_remove`.  The third component is the trace of stored elements
on which the cleanup capability is invoked during the call: the C
function body contains no call to `cleanup_fn`, so the trace is always
empty.  The `memmove` shifts the subsequent slots left one position
(it also copies one stale slot past the live region, which the count
decrement immediately hides), i.e. the live region becomes
`eraseIdx`. -/
def cset_remove {α : Type} (s : CSet α) (x : α) : Bool × CSet α × List α :=
  match bsearchIdx s.cmp_fn x s.elements with
  | none => (false, s, [])
  | some i => (true, { s with elements := s.elements.eraseIdx i }, [])

/-- `cset_size` (and its alias `cset_cardinality`). -/
def cset_size {α : Type} (s : CSet α) : Nat :=
  s.elements.length

/-- `cset_isEmpty`. -/
def cset_isEmpty {α : Type} (s : CSet α) : Bool :=
  s.elements.length == 0

/-- `cset_isSubsetOf`: every element of `set1` is found in `set2` by
`cset_contains`.  The C address-equality fast path (`set1 == set2`)
has no counterpart in a value model; no claim below applies the
operation to an aliased pair. -/
def cset_isSubsetOf {α : Type} (s1 s2 : CSet α) : Bool :=
  s1.elements.all fun e => cset_contains s2 e

/-- `cset_delete` on a possibly-NULL pointer.  `cset_delete(NULL)` reads
`set->cleanup_fn` through a NULL pointer, i.e. crashes: `Except.error`.
(The cleanup invocations of a successful delete do not feed any claim and
are not traced here.) -/
def cset_delete {α : Type} : Option (CSet α) → Except Unit Unit
  | none => .error ()
  | some _ => .ok ()

/-- The body of `cset_union` after the NULL checks and the
`assert(set1->elemsz == set2->elemsz)`: create a fresh set with `set1`'s
capabilities and capacity, then `cset_add` every element of `set1` and
then of `set2`. -/
def cset_union_ne {α : Type} (s1 s2 : CSet α) : CSet α :=
  let u := cset_create s1.elemsz s1.capacity s1.cmp_fn s1.has_cleanup s1.toString_fn
  let u := s1.elements.foldl (fun u e => (cset_add u e).2) u
  s2.elements.foldl (fun u e => (cset_add u e).2) u

/-- `cset_union`: NULL operands yield the NULL result (`.ok none`),
mismatched `elemsz` trips the assert (`.error`). -/
def cset_union {α : Type} : Option (CSet α) → Option (CSet α) → Except Unit (Option (CSet α))
  | none, _ => .ok none
  | some _, none => .ok none
  | some s1, some s2 =>
    if s1.elemsz = s2.elemsz then .ok (some (cset_union_ne s1 s2)) else .error ()

/-- The body of `cset_intersect` after the NULL checks and the assert:
the loop bound is the smaller of the two element counts, but the loop
body always reads `nth(set1, i)` — it traverses a prefix of `set1`, not
of the smaller set. -/
def cset_intersect_ne {α : Type} (s1 s2 : CSet α) : CSet α :=
  let inter := cset_create s1.elemsz s1.capacity s1.cmp_fn s1.has_cleanup s1.toString_fn
  let smaller_sz := min s1.elements.length s2.elements.length
  (s1.elements.take smaller_sz).foldl
    (fun acc e => if cset_contains s2 e then (cset_add acc e).2 else acc) inter

/-- `cset_intersect`. -/
def cset_intersect {α : Type} : Option (CSet α) → Option (CSet α) → Except Unit (Option (CSet α))
  | none, _ => .ok none
  | some _, none => .ok none
  | some s1, some s2 =>
    if s1.elemsz = s2.elemsz then .ok (some (cset_intersect_ne s1 s2)) else .error ()

/-- The body of `cset_difference` after the NULL checks and the assert:
keep each element of `set1` not contained in `set2`. -/
def cset_difference_ne {α : Type} (s1 s2 : CSet α) : CSet α :=
  let diff := cset_create s1.elemsz s1.capacity s1.cmp_fn s1.has_cleanup s1.toString_fn
  s1.elements.foldl (fun acc e => if cset_contains s2 e then acc else (cset_add acc e).2) diff

/-- `cset_difference`. -/
def cset_difference {α : Type} : Option (CSet α) → Option (CSet α) → Except Unit (Option (CSet α))
  | none, _ => .ok none
  | some _, none => .ok none
  | some s1, some s2 =>
    if s1.elemsz = s2.elemsz then .ok (some (cset_difference_ne s1 s2)) else .error ()

/-- `cset_symmetricDifference`: build `set1 - set2`, `set2 - set1`,
their union, then `cset_delete` both intermediates (with no NULL check
anywhere: a NULL operand makes the differences NULL, and deleting the
NULL intermediate dereferences NULL). -/
def cset_symmetricDifference {α : Type} (a b : Option (CSet α)) :
    Except Unit (Option (CSet α)) :=
  match cset_difference a b with
  | .error e => .error e
  | .ok diff1 =>
    match cset_difference b a with
    | .error e => .error e
    | .ok diff2 =>
      match cset_union diff1 diff2 with
      | .error e => .error e
      | .ok symm_diff =>
        match cset_delete diff1 with
        | .error e => .error e
        | .ok _ =>
          match cset_delete diff2 with
          | .error e => .error e
          | .ok _ => .ok symm_diff

/-- The element-by-element comparison loop of `cset_compare`, executed
when the two sets have equal counts (so equal list lengths): the first
non-zero `cmp_fn` result wins. -/
def cmpElems {α : Type} (cmp : α → α → Int) : List α → List α → Int
  | x :: xs, y :: ys => let c := cmp x y; if c ≠ 0 then c else cmpElems cmp xs ys
  | _, _ => 0

/-- `cset_compare`, the generic comparator for nested sets: compare by
element count, then by `elemsz`, then element-by-element with `set1`'s
comparator.  The C address-equality fast path (`set1 == set2`) has no
counterpart in a value model; it only affects aliased arguments, and no
claim below applies the comparator to an aliased pair.  The count and
`elemsz` differences are `int` subtractions in C; they are modelled on
`Int` (no verified path exercises counts or sizes anywhere near
overflow). -/
def cset_compare {α : Type} (s1 s2 : CSet α) : Int :=
  if s1.elements.length ≠ s2.elements.length then
    (s1.elements.length : Int) - (s2.elements.length : Int)
  else if s1.elemsz ≠ s2.elemsz then (s1.elemsz : Int) - (s2.elemsz : Int)
  else cmpElems s1.cmp_fn s1.elements s2.elements

/-- The concatenation loop of `cset_toString`: each element's stringify
output, with `", "` appended after every element but the last. -/
def renderElems {α : Type} (f : α → String) : List α → String
  | [] => ""
  | [x] => f x
  | x :: xs => f x ++ ", " ++ renderElems f xs

/-- `cset_toString`: NULL (`none`) when no stringify capability was
supplied, otherwise `"{"`, the rendered elements in storage order, `"}"`.
(The C fixed 2000-byte buffer is a capacity, not part of the contract;
the model string is unbounded.) -/
def cset_toString {α : Type} (s : CSet α) : Option String :=
  match s.toString_fn with
  | none => none
  | some f => some ("\x7b" ++ renderElems f s.elements ++ "\x7d")

/-- `cset_genericToString`, the stringify capability for nested sets:
render the referenced set.  (If the nested set has no stringify
capability the C code would pass NULL to `strcat`; that path feeds no
claim and is collapsed to `""`.) -/
def cset_genericToString {α : Type} (s : CSet α) : String :=
  (cset_toString s).getD ""

/-- `__builtin_popcount`. -/
def popcount : Nat → Nat
  | 0 => 0
  | n + 1 => (n + 1) % 2 + popcount ((n + 1) / 2)
decreasing_by omega

/-- `sizeof(CSet*)`, the `elemsz` of every set-of-sets (8 on LP64). -/
def ptrSize : Nat := 8

/-- The inner loop of `cset_powerSet` for one bit vector: scan the input
slots in index order and `cset_add` those whose bit is set into a subset
created with the input's capabilities (capacity hint = popcount). -/
def subsetOfBits {α : Type} (s : CSet α) (bv : Nat) : CSet α :=
  s.elements.enum.foldl
    (fun sub p => if (bv >>> p.1) &&& 1 = 1 then (cset_add sub p.2).2 else sub)
    (cset_create s.elemsz (popcount bv) s.cmp_fn s.has_cleanup s.toString_fn)

/-- `cset_powerSet`: a set of sets created with the generic capability
triple and capacity `2 ^ n`; the empty subset is added first (capacity
hint 1), then the subset of every bit vector from 1 to `2 ^ n - 1`.
(`1 << set_size` and the `unsigned` loop counter are modelled on
unbounded `Nat`.) -/
def cset_powerSet {α : Type} (s : CSet α) : CSet (CSet α) :=
  let set_size := s.elements.length
  let pset_size := 2 ^ set_size
  let power_set : CSet (CSet α) :=
    cset_create ptrSize pset_size cset_compare true (some cset_genericToString)
  let empty : CSet α := cset_create s.elemsz 1 s.cmp_fn s.has_cleanup s.toString_fn
  let power_set := (cset_add power_set empty).2
  (List.range' 1 (pset_size - 1)).foldl
    (fun ps bv => (cset_add ps (subsetOfBits s bv)).2) power_set

/-! ### A heap with explicit allocation, for the frame/aliasing claims

The set-algebra functions allocate their result with `cset_create` and
only read their operands.  To state that (and the no-aliasing guarantee)
we thread an explicit heap: a list of allocated, possibly freed, set
records.  A `CSet*` is `Option Nat` (`none` = NULL, `some i` = the record
at heap index `i`); `malloc` appends a record, `free` replaces it with
`none`. -/

/-- The heap of allocated set records. -/
abbrev Heap (α : Type) : Type := List (Option (CSet α))

/-- Dereference a heap index. -/
def Heap.lookup {α : Type} (h : Heap α) (i : Nat) : Option (CSet α) :=
  List.getD h i none

/-- Dereference a possibly-NULL pointer. -/
def Heap.resolve {α : Type} (h : Heap α) (p : Option Nat) : Option (CSet α) :=
  p.bind h.lookup

/-- `cset_union` at the heap level: the result record, when the operands
are non-NULL, is freshly allocated at the end of the heap. -/
def cset_unionH {α : Type} (h : Heap α) (p q : Option Nat) :
    Except Unit (Heap α × Option Nat) :=
  match cset_union (h.resolve p) (h.resolve q) with
  | .error e => .error e
  | .ok none => .ok (h, none)
  | .ok (some u) => .ok (h ++ [some u], some h.length)

/-- `cset_intersect` at the heap level. -/
def cset_intersectH {α : Type} (h : Heap α) (p q : Option Nat) :
    Except Unit (Heap α × Option Nat) :=
  match cset_intersect (h.resolve p) (h.resolve q) with
  | .error e => .error e
  | .ok none => .ok (h, none)
  | .ok (some u) => .ok (h ++ [some u], some h.length)

/-- `cset_difference` at the heap level. -/
def cset_differenceH {α : Type} (h : Heap α) (p q : Option Nat) :
    Except Unit (Heap α × Option Nat) :=
  match cset_difference (h.resolve p) (h.resolve q) with
  | .error e => .error e
  | .ok none => .ok (h, none)
  | .ok (some u) => .ok (h ++ [some u], some h.length)

/-- `cset_delete` at the heap level: dereferencing NULL or a freed
record crashes; otherwise the record is freed in place. -/
def cset_deleteH {α : Type} (h : Heap α) (p : Option Nat) : Except Unit (Heap α) :=
  match p with
  | none => .error ()
  | some i =>
    match h.lookup i with
    | none => .error ()
    | some _ => .ok (h.set i none)

/-- `cset_symmetricDifference` at the heap level: allocate the two
differences and their union, then free the two intermediates. -/
def cset_symmetricDifferenceH {α : Type} (h : Heap α) (p q : Option Nat) :
    Except Unit (Heap α × Option Nat) :=
  match cset_differenceH h p q with
  | .error e => .error e
  | .ok (h1, diff1) =>
    match cset_differenceH h1 q p with
    | .error e => .error e
    | .ok (h2, diff2) =>
      match cset_unionH h2 diff1 diff2 with
      | .error e => .error e
      | .ok (h3, symm_diff) =>
        match cset_deleteH h3 diff1 with
        | .error e => .error e
        | .ok h4 =>
          match cset_deleteH h4 diff2 with
          | .error e => .error e
          | .ok h5 => .ok (h5, symm_diff)

/-- The contract of a client comparator (cset.h: "a valid comparator
function", spec 6: "comparison (mandatory, total order,
positive/zero/negative per greater/equal/less)"): reflexively zero,
antisymmetric in sign, transitive, and zero-results behave like
equality on either side of a strict comparison. -/
def LawfulCmp {α : Type} (cmp : α → α → Int) : Prop :=
  (∀ a, cmp a a = 0) ∧
  (∀ a b, cmp a b < 0 ↔ 0 < cmp b a) ∧
  (∀ a b c, cmp a b < 0 → cmp b c < 0 → cmp a c < 0) ∧
  (∀ a b c, cmp a b = 0 → cmp b c < 0 → cmp a c < 0) ∧
  (∀ a b c, cmp a b < 0 → cmp b c = 0 → cmp a c < 0)

/-- The sublist of `l` selected by the bits of `b` (bit `i` set chooses
the element at index `i`): the mathematical reading of the power-set
generator's inner loop. -/
def selectBits {α : Type} : Nat → List α → List α
  | _, [] => []
  | b, x :: xs => if b % 2 = 1 then x :: selectBits (b / 2) xs else selectBits (b / 2) xs

/-- The comparator of the test driver (`compare_ints` in set_test.c):
`*(int*)addr1 - *(int*)addr2`, overflow-free on `Int`. -/
def intCmp (a b : Int) : Int := a - b

/-- C1: the spec says `cset_add` of an already-present value returns
false and leaves the set (in particular its size) unchanged.  The code
violates this: on the one-element set {1} (built by `cset_add` from a
fresh set), adding 1 again skips the binary-search phase entirely
(`partial_sz = 1`), the linear scan stops on the equal slot without
checking for equality, and the duplicate is inserted: the call returns
true and the size grows from 1 to 2. -/
theorem C1_add_duplicate_inserted :
    let s0 : CSet Int := cset_create 8 0 intCmp false none
    let s1 := (cset_add s0 1).2
    s1.elements = [1] ∧ (cset_add s1 1).1 = true ∧ (cset_add s1 1).2.elements = [1, 1] := by
  decide

theorem intercalate_go_pull (s p : String) :
    ∀ (l : List String) (acc : String),
      String.intercalate.go (p ++ acc) s l = p ++ String.intercalate.go acc s l
  | [], _ => rfl
  | a :: as, acc => by
    show String.intercalate.go (p ++ acc ++ s ++ a) s as =
      p ++ String.intercalate.go (acc ++ s ++ a) s as
    rw [String.append_assoc (p ++ acc) s a, String.append_assoc p acc (s ++ a),
      intercalate_go_pull s p as, String.append_assoc acc s a]

/-- `renderElems` is comma-space interposition over the per-element
strings. -/
theorem renderElems_eq_intercalate {α : Type} (f : α → String) :
    ∀ l : List α, renderElems f l = String.intercalate ", " (l.map f)
  | [] => rfl
  | [x] => rfl
  | x :: y :: xs => by
    have ih := renderElems_eq_intercalate f (y :: xs)
    show f x ++ ", " ++ renderElems f (y :: xs) =
      String.intercalate.go (f x ++ ", " ++ f y) ", " (List.map f xs)
    rw [ih]
    show f x ++ ", " ++ String.intercalate.go (f y) ", " (List.map f xs) =
      String.intercalate.go (f x ++ ", " ++ f y) ", " (List.map f xs)
    rw [intercalate_go_pull, String.append_assoc]

/-- C2: the spec says `cset_intersect` iterates the smaller operand and
keeps the elements found in the other, so that the result holds exactly
the common elements whichever operand is smaller.  The code instead
always reads `nth(set1, i)` while bounding `i` by the smaller count
(contradicting its own comment "Traverses the elements array of the
smaller set").  With a = {1,2,3} and b = {3} (both built by `cset_add`),
3 is in both operands, yet the intersection comes back empty: only
a's first element 1 is ever examined. -/
theorem C2_intersect_wrong_operand :
    let a : CSet Int :=
      (cset_add (cset_add (cset_add (cset_create 4 0 intCmp false none) 1).2 2).2 3).2
    let b : CSet Int := (cset_add (cset_create 4 0 intCmp false none) 3).2
    a.elements = [1, 2, 3] ∧ b.elements = [3] ∧
      cset_contains a 3 = true ∧ cset_contains b 3 = true ∧
      cset_intersect (some a) (some b) = .ok (some (cset_intersect_ne a b)) ∧
      (cset_intersect_ne a b).elements = [] := by
  exact ⟨by decide, by decide, by decide, by decide, rfl, by decide⟩

/-- C4: the spec (and the documentation of `cset_remove` in cset.h,
"Calls the client's cleanup function on the element") says a successful
removal invokes the cleanup capability on the stored slot.  The body of
`cset_remove` in cset.c contains no call to `cleanup_fn` at all: on the
set {5} created *with* a cleanup capability, removing 5 succeeds, erases
the slot and decrements the count, but the cleanup-invocation trace is
empty. -/
theorem C4_remove_skips_cleanup :
    let s5 : CSet Int := (cset_add (cset_create 4 0 intCmp true none) 5).2
    s5.has_cleanup = true ∧ s5.elements = [5] ∧
      (cset_remove s5 5).1 = true ∧ (cset_remove s5 5).2.1.elements = [] ∧
      (cset_remove s5 5).2.2 = [] := by
  decide

/-- C5: the spec says any `cset_add`/`cset_remove` sequence from
`cset_create` keeps the elements strictly sorted (adjacent compares
negative, no two elements equal).  The sequence add 1, add 1 produces
the stored array [1, 1]: the second add misses the duplicate (the
binary-search phase runs zero iterations on a one-element set) and
inserts it, so an adjacent pair compares equal. -/
theorem C5_sorted_invariant_broken :
    let s : CSet Int := (cset_add (cset_add (cset_create 4 0 intCmp false none) 1).2 1).2
    s.elements = [1, 1] ∧ ¬ List.Chain' (fun a b => s.cmp_fn a b < 0) s.elements := by
  refine ⟨by decide, fun h => ?_⟩
  rw [show ((cset_add (cset_add (cset_create 4 0 intCmp false none) 1).2 1).2 : CSet Int).elements
      = [1, 1] from by decide] at h
  exact absurd (List.chain'_cons.mp h).1 (by decide)

/-- C6: the spec says `contains(x)` is true immediately after `add(x)`.
On the set {0,2,4,6,8,10} (built by `cset_add` in increasing order),
adding 1 returns true but inserts 1 at the wrong position (the stored
array becomes [0,2,1,4,6,8,10]): the binary phase overshoots the correct
slot and the linear correction cannot move left.  `cset_contains` then
binary-searches the no-longer-sorted array and misses: contains(1) is
false immediately after add(1) succeeded.  (The remove half fails too:
after add 1, add 1 builds [1,1], removing 1 leaves the other copy, so
remove(x) then contains(x) is true.) -/
theorem C6_add_then_contains_false :
    let S : CSet Int :=
      [0, 2, 4, 6, 8, 10].foldl (fun s v => (cset_add s v).2) (cset_create 4 0 intCmp false none)
    S.elements = [0, 2, 4, 6, 8, 10] ∧ (cset_add S 1).1 = true ∧
      (cset_add S 1).2.elements = [0, 2, 1, 4, 6, 8, 10] ∧
      cset_contains (cset_add S 1).2 1 = false := by
  decide

/-- C10: `cset_compare` on two empty sets with equal `elemsz` is 0
whatever their capacities and their comparison, cleanup, and stringify
capabilities: the count criterion ties at 0, the `elemsz` criterion
ties, and the element loop runs zero iterations. -/
theorem C10_compare_empty_sets {α : Type} (s1 s2 : CSet α)
    (h1 : s1.elements = []) (h2 : s2.elements = []) (h3 : s1.elemsz = s2.elemsz) :
    cset_compare s1 s2 = 0 := by
  simp [cset_compare, h1, h2, h3, cmpElems]

/-- C10 witness: two concrete empty `Int` sets with different
capacities and different capability triples compare equal. -/
theorem C10_compare_empty_sets_witness :
    cset_compare (cset_create 4 7 intCmp false none)
      (cset_create 4 99 (fun a b => b - a) true (some (fun _ => "x"))) = 0 :=
  C10_compare_empty_sets _ _ rfl rfl rfl

/-- C3 counterexample: the claim says every binary set-algebra operation
given a NULL operand returns the NULL result marker and does not crash.
`cset_symmetricDifference(NULL, b)` computes NULL difference sets and
hands them to `cset_delete`, which dereferences NULL
(`set->cleanup_fn`): the call crashes instead of returning NULL. -/
theorem C3_symmetricDifference_null_crash :
    cset_symmetricDifference (none : Option (CSet Int))
      (some (cset_create 4 0 intCmp false none)) = .error () := rfl

/-- C3 amended: `cset_union`, `cset_intersect` and `cset_difference`
given a NULL operand return NULL without dereferencing it; but
`cset_symmetricDifference` given a NULL operand crashes, because it
passes its NULL intermediate difference sets to `cset_delete`, which
dereferences them. -/
theorem C3_null_operand_behaviour {α : Type} (a b : Option (CSet α))
    (h : a = none ∨ b = none) :
    cset_union a b = .ok none ∧ cset_intersect a b = .ok none ∧
      cset_difference a b = .ok none ∧ cset_symmetricDifference a b = .error () := by
  rcases h with h | h <;> subst h
  · cases b <;> exact ⟨rfl, rfl, rfl, rfl⟩
  · cases a <;> exact ⟨rfl, rfl, rfl, rfl⟩

/-- C3 witness: at the concrete pair (NULL, empty int set), the three
guarded operations return the NULL marker and the symmetric difference
crashes. -/
theorem C3_null_operand_behaviour_witness :
    cset_union (none : Option (CSet Int)) (some (cset_create 4 0 intCmp false none)) =
        .ok none ∧
      cset_intersect (none : Option (CSet Int)) (some (cset_create 4 0 intCmp false none)) =
        .ok none ∧
      cset_difference (none : Option (CSet Int)) (some (cset_create 4 0 intCmp false none)) =
        .ok none ∧
      cset_symmetricDifference (none : Option (CSet Int))
        (some (cset_create 4 0 intCmp false none)) = .error () :=
  C3_null_operand_behaviour none (some (cset_create 4 0 intCmp false none)) (Or.inl rfl)

/-- C8: `cset_toString` returns NULL when no stringify capability was
supplied; with a stringify capability `f` it renders
`"{e1, e2, ..., en}"`, the per-element outputs of `f` in storage order
with comma-space separators and none after the last (the hypothesis
makes the storage order the ascending `cmp_fn` order). -/
theorem C8_toString_rendering {α : Type} (s : CSet α)
    (_hsorted : List.Chain' (fun a b => s.cmp_fn a b < 0) s.elements) :
    (s.toString_fn = none → cset_toString s = none) ∧
      ∀ f, s.toString_fn = some f →
        cset_toString s =
          some ("\x7b" ++ String.intercalate ", " (s.elements.map f) ++ "\x7d") := by
  refine ⟨fun h => by simp [cset_toString, h], fun f h => ?_⟩
  simp [cset_toString, h, renderElems_eq_intercalate]

/-- C8 witness: on the spec's example set {1, 2, 3, 5, 6, 12, 15}
(strictly sorted under the int comparator) with the decimal stringifier,
`cset_toString` renders exactly "{1, 2, 3, 5, 6, 12, 15}". -/
theorem C8_toString_rendering_witness :
    cset_toString (⟨[1, 2, 3, 5, 6, 12, 15], 4, 32, intCmp, false,
      some (fun n => toString n)⟩ : CSet Int) = some "\x7b1, 2, 3, 5, 6, 12, 15\x7d" := by
  have h := (C8_toString_rendering
    (⟨[1, 2, 3, 5, 6, 12, 15], 4, 32, intCmp, false, some (fun n => toString n)⟩ : CSet Int)
    (by norm_num [List.chain'_cons, List.chain'_singleton, intCmp])).2
    (fun n => toString n) rfl
  rw [h]
  decide

theorem Heap.lookup_lt_length {α : Type} {h : Heap α} {i : Nat} {a : CSet α}
    (hi : Heap.lookup h i = some a) : i < h.length := by
  by_contra hlt
  rw [Heap.lookup, List.getD_eq_getElem?_getD, List.getElem?_eq_none (by omega)] at hi
  exact Option.noConfusion hi

theorem Heap.lookup_append_lt {α : Type} (h l2 : Heap α) (i : Nat) (hi : i < h.length) :
    Heap.lookup (h ++ l2) i = Heap.lookup h i := by
  rw [Heap.lookup, Heap.lookup, List.getD_eq_getElem?_getD, List.getD_eq_getElem?_getD,
    List.getElem?_append_left hi]

theorem Heap.lookup_append_at {α : Type} (h : Heap α) (x : Option (CSet α)) (l2 : Heap α) :
    Heap.lookup (h ++ x :: l2) h.length = x := by
  rw [Heap.lookup, List.getD_eq_getElem?_getD, List.getElem?_append_right (Nat.le_refl _)]
  simp

theorem Heap.lookup_set_ne {α : Type} (h : Heap α) (j : Nat) (x : Option (CSet α)) (i : Nat)
    (hne : i ≠ j) : Heap.lookup (h.set j x) i = Heap.lookup h i := by
  rw [Heap.lookup, Heap.lookup, List.getD_eq_getElem?_getD, List.getD_eq_getElem?_getD,
    List.getElem?_set_ne (fun e => hne e.symm)]

theorem check_resize_elemsz {α : Type} (s : CSet α) : (check_resize s).elemsz = s.elemsz := by
  unfold check_resize; split <;> rfl

theorem check_resize_cmp_fn {α : Type} (s : CSet α) : (check_resize s).cmp_fn = s.cmp_fn := by
  unfold check_resize; split <;> rfl

theorem check_resize_has_cleanup {α : Type} (s : CSet α) :
    (check_resize s).has_cleanup = s.has_cleanup := by
  unfold check_resize; split <;> rfl

theorem check_resize_toString_fn {α : Type} (s : CSet α) :
    (check_resize s).toString_fn = s.toString_fn := by
  unfold check_resize; split <;> rfl

theorem check_resize_elements {α : Type} (s : CSet α) :
    (check_resize s).elements = s.elements := by
  unfold check_resize; split <;> rfl

theorem cset_add_elemsz {α : Type} (s : CSet α) (x : α) :
    ((cset_add s x).2).elemsz = s.elemsz := by
  unfold cset_add
  dsimp only
  cases haddLoop : addLoop s.cmp_fn x s.elements s.elements.length
      ((s.elements.length / 2 : Nat) : Int) <;>
    simp [haddLoop, check_resize_elemsz]

theorem cset_add_cmp_fn {α : Type} (s : CSet α) (x : α) :
    ((cset_add s x).2).cmp_fn = s.cmp_fn := by
  unfold cset_add
  dsimp only
  cases haddLoop : addLoop s.cmp_fn x s.elements s.elements.length
      ((s.elements.length / 2 : Nat) : Int) <;>
    simp [haddLoop, check_resize_cmp_fn]

theorem cset_add_has_cleanup {α : Type} (s : CSet α) (x : α) :
    ((cset_add s x).2).has_cleanup = s.has_cleanup := by
  unfold cset_add
  dsimp only
  cases haddLoop : addLoop s.cmp_fn x s.elements s.elements.length
      ((s.elements.length / 2 : Nat) : Int) <;>
    simp [haddLoop, check_resize_has_cleanup]

theorem cset_add_toString_fn {α : Type} (s : CSet α) (x : α) :
    ((cset_add s x).2).toString_fn = s.toString_fn := by
  unfold cset_add
  dsimp only
  cases haddLoop : addLoop s.cmp_fn x s.elements s.elements.length
      ((s.elements.length / 2 : Nat) : Int) <;>
    simp [haddLoop, check_resize_toString_fn]

theorem foldl_cset_preserves {α β γ : Type} (proj : CSet α → γ) (g : CSet α → β → CSet α)
    (hg : ∀ s e, proj (g s e) = proj s) :
    ∀ (l : List β) (s : CSet α), proj (l.foldl g s) = proj s
  | [], _ => rfl
  | e :: t, s => by rw [List.foldl_cons, foldl_cset_preserves proj g hg t, hg]

theorem cset_difference_ne_elemsz {α : Type} (s1 s2 : CSet α) :
    (cset_difference_ne s1 s2).elemsz = s1.elemsz := by
  unfold cset_difference_ne
  rw [foldl_cset_preserves CSet.elemsz _
    (fun s e => by by_cases hc : cset_contains s2 e <;> simp [hc, cset_add_elemsz])]
  rfl

/-- C9: with non-NULL operands of equal `elemsz`, each set-algebra
operation leaves both operand records on the heap completely untouched
(the whole record: elements, count, capacity, capabilities), returns a
freshly `malloc`ed record whose heap address differs from both operand
addresses (even when one operand is a subset of the other, the result is
never an alias), and the symmetric difference additionally allocates and
then frees its two intermediate difference sets without ever touching
the operands. -/
theorem C9_algebra_frame_and_fresh {α : Type} (h : Heap α) (i j : Nat) (a b : CSet α)
    (hi : Heap.lookup h i = some a) (hj : Heap.lookup h j = some b)
    (hsz : a.elemsz = b.elemsz) :
    (cset_unionH h (some i) (some j) =
        .ok (h ++ [some (cset_union_ne a b)], some h.length) ∧
      Heap.lookup (h ++ [some (cset_union_ne a b)]) i = some a ∧
      Heap.lookup (h ++ [some (cset_union_ne a b)]) j = some b ∧
      Heap.lookup (h ++ [some (cset_union_ne a b)]) h.length = some (cset_union_ne a b) ∧
      h.length ≠ i ∧ h.length ≠ j) ∧
    (cset_intersectH h (some i) (some j) =
        .ok (h ++ [some (cset_intersect_ne a b)], some h.length) ∧
      Heap.lookup (h ++ [some (cset_intersect_ne a b)]) i = some a ∧
      Heap.lookup (h ++ [some (cset_intersect_ne a b)]) j = some b ∧
      Heap.lookup (h ++ [some (cset_intersect_ne a b)]) h.length =
        some (cset_intersect_ne a b)) ∧
    (cset_differenceH h (some i) (some j) =
        .ok (h ++ [some (cset_difference_ne a b)], some h.length) ∧
      Heap.lookup (h ++ [some (cset_difference_ne a b)]) i = some a ∧
      Heap.lookup (h ++ [some (cset_difference_ne a b)]) j = some b ∧
      Heap.lookup (h ++ [some (cset_difference_ne a b)]) h.length =
        some (cset_difference_ne a b)) ∧
    (cset_symmetricDifferenceH h (some i) (some j) =
        .ok (((h ++ [some (cset_difference_ne a b)] ++ [some (cset_difference_ne b a)] ++
            [some (cset_union_ne (cset_difference_ne a b) (cset_difference_ne b a))]).set
              h.length none).set (h.length + 1) none,
          some (h.length + 2)) ∧
      Heap.lookup (((h ++ [some (cset_difference_ne a b)] ++ [some (cset_difference_ne b a)] ++
          [some (cset_union_ne (cset_difference_ne a b) (cset_difference_ne b a))]).set
            h.length none).set (h.length + 1) none) i = some a ∧
      Heap.lookup (((h ++ [some (cset_difference_ne a b)] ++ [some (cset_difference_ne b a)] ++
          [some (cset_union_ne (cset_difference_ne a b) (cset_difference_ne b a))]).set
            h.length none).set (h.length + 1) none) j = some b ∧
      Heap.lookup (((h ++ [some (cset_difference_ne a b)] ++ [some (cset_difference_ne b a)] ++
          [some (cset_union_ne (cset_difference_ne a b) (cset_difference_ne b a))]).set
            h.length none).set (h.length + 1) none) (h.length + 2) =
        some (cset_union_ne (cset_difference_ne a b) (cset_difference_ne b a)) ∧
      h.length + 2 ≠ i ∧ h.length + 2 ≠ j) := by
  have hilen := Heap.lookup_lt_length hi
  have hjlen := Heap.lookup_lt_length hj
  refine ⟨⟨?_, ?_, ?_, ?_, by omega, by omega⟩, ⟨?_, ?_, ?_, ?_⟩, ⟨?_, ?_, ?_, ?_⟩, ?_⟩
  · unfold cset_unionH
    rw [show Heap.resolve h (some i) = some a from hi,
      show Heap.resolve h (some j) = some b from hj]
    simp [cset_union, hsz]
  · rw [Heap.lookup_append_lt _ _ _ hilen]; exact hi
  · rw [Heap.lookup_append_lt _ _ _ hjlen]; exact hj
  · exact Heap.lookup_append_at h _ []
  · unfold cset_intersectH
    rw [show Heap.resolve h (some i) = some a from hi,
      show Heap.resolve h (some j) = some b from hj]
    simp [cset_intersect, hsz]
  · rw [Heap.lookup_append_lt _ _ _ hilen]; exact hi
  · rw [Heap.lookup_append_lt _ _ _ hjlen]; exact hj
  · exact Heap.lookup_append_at h _ []
  · unfold cset_differenceH
    rw [show Heap.resolve h (some i) = some a from hi,
      show Heap.resolve h (some j) = some b from hj]
    simp [cset_difference, hsz]
  · rw [Heap.lookup_append_lt _ _ _ hilen]; exact hi
  · rw [Heap.lookup_append_lt _ _ _ hjlen]; exact hj
  · exact Heap.lookup_append_at h _ []
  have hd1 : cset_differenceH h (some i) (some j) =
      .ok (h ++ [some (cset_difference_ne a b)], some h.length) := by
    unfold cset_differenceH
    rw [show Heap.resolve h (some i) = some a from hi,
      show Heap.resolve h (some j) = some b from hj]
    simp [cset_difference, hsz]
  have hd2 : cset_differenceH (h ++ [some (cset_difference_ne a b)]) (some j) (some i) =
      .ok (h ++ [some (cset_difference_ne a b)] ++ [some (cset_difference_ne b a)],
        some (h.length + 1)) := by
    unfold cset_differenceH
    rw [show Heap.resolve (h ++ [some (cset_difference_ne a b)]) (some j) = some b from by
        show Heap.lookup _ j = _
        rw [Heap.lookup_append_lt _ _ _ hjlen]; exact hj,
      show Heap.resolve (h ++ [some (cset_difference_ne a b)]) (some i) = some a from by
        show Heap.lookup _ i = _
        rw [Heap.lookup_append_lt _ _ _ hilen]; exact hi]
    simp [cset_difference, hsz]
  have hdsz : (cset_difference_ne a b).elemsz = (cset_difference_ne b a).elemsz := by
    rw [cset_difference_ne_elemsz, cset_difference_ne_elemsz, hsz]
  have hun : cset_unionH (h ++ [some (cset_difference_ne a b)] ++
      [some (cset_difference_ne b a)]) (some h.length) (some (h.length + 1)) =
      .ok (h ++ [some (cset_difference_ne a b)] ++ [some (cset_difference_ne b a)] ++
        [some (cset_union_ne (cset_difference_ne a b) (cset_difference_ne b a))],
        some (h.length + 2)) := by
    unfold cset_unionH
    rw [show Heap.resolve (h ++ [some (cset_difference_ne a b)] ++
          [some (cset_difference_ne b a)]) (some h.length) = some (cset_difference_ne a b) from by
        show Heap.lookup _ h.length = _
        rw [Heap.lookup_append_lt _ _ _ (by simp)]
        exact Heap.lookup_append_at h _ [],
      show Heap.resolve (h ++ [some (cset_difference_ne a b)] ++
          [some (cset_difference_ne b a)]) (some (h.length + 1)) =
          some (cset_difference_ne b a) from by
        show Heap.lookup _ (h.length + 1) = _
        rw [show h.length + 1 = (h ++ [some (cset_difference_ne a b)]).length from by simp]
        exact Heap.lookup_append_at _ _ []]
    simp [cset_union, hdsz]
  have hl1 : Heap.lookup (h ++ [some (cset_difference_ne a b)] ++
      [some (cset_difference_ne b a)] ++
      [some (cset_union_ne (cset_difference_ne a b) (cset_difference_ne b a))]) h.length =
      some (cset_difference_ne a b) := by
    rw [Heap.lookup_append_lt _ _ _ (by simp), Heap.lookup_append_lt _ _ _ (by simp)]
    exact Heap.lookup_append_at h _ []
  have hdel1 : cset_deleteH (h ++ [some (cset_difference_ne a b)] ++
      [some (cset_difference_ne b a)] ++
      [some (cset_union_ne (cset_difference_ne a b) (cset_difference_ne b a))])
      (some h.length) =
      .ok ((h ++ [some (cset_difference_ne a b)] ++ [some (cset_difference_ne b a)] ++
        [some (cset_union_ne (cset_difference_ne a b) (cset_difference_ne b a))]).set
          h.length none) := by
    unfold cset_deleteH
    dsimp only
    rw [hl1]
  have hl2 : Heap.lookup ((h ++ [some (cset_difference_ne a b)] ++
      [some (cset_difference_ne b a)] ++
      [some (cset_union_ne (cset_difference_ne a b) (cset_difference_ne b a))]).set
        h.length none) (h.length + 1) = some (cset_difference_ne b a) := by
    rw [Heap.lookup_set_ne _ _ _ _ (by omega), Heap.lookup_append_lt _ _ _ (by simp),
      show h.length + 1 = (h ++ [some (cset_difference_ne a b)]).length from by simp]
    exact Heap.lookup_append_at _ _ []
  have hdel2 : cset_deleteH ((h ++ [some (cset_difference_ne a b)] ++
      [some (cset_difference_ne b a)] ++
      [some (cset_union_ne (cset_difference_ne a b) (cset_difference_ne b a))]).set
        h.length none) (some (h.length + 1)) =
      .ok (((h ++ [some (cset_difference_ne a b)] ++ [some (cset_difference_ne b a)] ++
        [some (cset_union_ne (cset_difference_ne a b) (cset_difference_ne b a))]).set
          h.length none).set (h.length + 1) none) := by
    unfold cset_deleteH
    dsimp only
    rw [hl2]
  refine ⟨?_, ?_, ?_, ?_, by omega, by omega⟩
  · unfold cset_symmetricDifferenceH
    simp only [hd1, hd2, hun, hdel1, hdel2]
  · rw [Heap.lookup_set_ne _ _ _ _ (by omega), Heap.lookup_set_ne _ _ _ _ (by omega),
      Heap.lookup_append_lt _ _ _ (by simp; omega), Heap.lookup_append_lt _ _ _ (by simp; omega),
      Heap.lookup_append_lt _ _ _ hilen]
    exact hi
  · rw [Heap.lookup_set_ne _ _ _ _ (by omega), Heap.lookup_set_ne _ _ _ _ (by omega),
      Heap.lookup_append_lt _ _ _ (by simp; omega), Heap.lookup_append_lt _ _ _ (by simp; omega),
      Heap.lookup_append_lt _ _ _ hjlen]
    exact hj
  · rw [Heap.lookup_set_ne _ _ _ _ (by omega), Heap.lookup_set_ne _ _ _ _ (by omega),
      show h.length + 2 = (h ++ [some (cset_difference_ne a b)] ++
        [some (cset_difference_ne b a)]).length from by simp]
    exact Heap.lookup_append_at _ _ []

/-- C9 witness: on a two-record heap holding {1} and {1, 2} (the first a
subset of the second), the union allocates a fresh third record and
returns its address, leaving records 0 and 1 untouched. -/
theorem C9_algebra_frame_and_fresh_witness :
    cset_unionH [some (⟨[1], 4, 4, intCmp, false, none⟩ : CSet Int),
        some (⟨[1, 2], 4, 4, intCmp, false, none⟩ : CSet Int)] (some 0) (some 1) =
      .ok ([some (⟨[1], 4, 4, intCmp, false, none⟩ : CSet Int),
          some (⟨[1, 2], 4, 4, intCmp, false, none⟩ : CSet Int)] ++
          [some (cset_union_ne (⟨[1], 4, 4, intCmp, false, none⟩ : CSet Int)
            (⟨[1, 2], 4, 4, intCmp, false, none⟩ : CSet Int))],
        some 2) :=
  (C9_algebra_frame_and_fresh
    [some (⟨[1], 4, 4, intCmp, false, none⟩ : CSet Int),
      some (⟨[1, 2], 4, 4, intCmp, false, none⟩ : CSet Int)] 0 1
    (⟨[1], 4, 4, intCmp, false, none⟩ : CSet Int)
    (⟨[1, 2], 4, 4, intCmp, false, none⟩ : CSet Int) rfl rfl rfl).1.1

theorem addLoopF_irrel {α : Type} (cmp : α → α → Int) (x : α) (l : List α) :
    ∀ (fuel p : Nat) (idx : Int), p ≤ fuel →
      addLoopF cmp x l fuel p idx = addLoopF cmp x l p p idx := by
  intro fuel
  induction fuel using Nat.strong_induction_on with
  | _ fuel ih =>
    intro p idx hp
    by_cases h1 : 1 < p
    · obtain ⟨f, rfl⟩ : ∃ f, fuel = f + 1 := ⟨fuel - 1, by omega⟩
      obtain ⟨k, rfl⟩ : ∃ k, p = k + 1 := ⟨p - 1, by omega⟩
      rw [addLoopF, addLoopF]
      simp only [if_pos h1]
      by_cases hc : cmp x (nthI l x idx) = 0
      · simp [hc]
      · by_cases hpos : 0 < cmp x (nthI l x idx)
        · simp only [if_neg hc, if_pos hpos]
          rw [ih f (by omega) _ _ (by omega), ih k (by omega) _ _ (by omega)]
        · simp only [if_neg hc, if_neg hpos]
          rw [ih f (by omega) _ _ (by omega), ih k (by omega) _ _ (by omega)]
    · have hp01 : p = 0 ∨ p = 1 := by omega
      rcases hp01 with rfl | rfl
      · cases fuel with
        | zero => rfl
        | succ f => rw [addLoopF, addLoopF]; simp
      · cases fuel with
        | zero => omega
        | succ f => rw [addLoopF, addLoopF]; simp

theorem addLoop_stop {α : Type} (cmp : α → α → Int) (x : α) (l : List α) (p : Nat) (idx : Int)
    (h : ¬ 1 < p) : addLoop cmp x l p idx = some idx := by
  have : p = 0 ∨ p = 1 := by omega
  rcases this with rfl | rfl
  · rfl
  · rw [addLoop, addLoopF]; simp

theorem addLoop_dup {α : Type} (cmp : α → α → Int) (x : α) (l : List α) (p : Nat) (idx : Int)
    (h : 1 < p) (hc : cmp x (nthI l x idx) = 0) : addLoop cmp x l p idx = none := by
  obtain ⟨k, rfl⟩ : ∃ k, p = k + 1 := ⟨p - 1, by omega⟩
  rw [addLoop, addLoopF]
  simp [h, hc]

theorem addLoop_gt {α : Type} (cmp : α → α → Int) (x : α) (l : List α) (p : Nat) (idx : Int)
    (h : 1 < p) (hc : 0 < cmp x (nthI l x idx)) :
    addLoop cmp x l p idx = addLoop cmp x l (p / 2) (idx + ((p / 2 / 2 : Nat) : Int)) := by
  obtain ⟨k, rfl⟩ : ∃ k, p = k + 1 := ⟨p - 1, by omega⟩
  rw [addLoop, addLoopF, addLoop]
  have hc0 : cmp x (nthI l x idx) ≠ 0 := by omega
  simp only [if_pos h, if_neg hc0, if_pos hc]
  exact addLoopF_irrel cmp x l k ((k + 1) / 2) _ (by omega)

theorem addLoop_lt {α : Type} (cmp : α → α → Int) (x : α) (l : List α) (p : Nat) (idx : Int)
    (h : 1 < p) (hc : cmp x (nthI l x idx) < 0) :
    addLoop cmp x l p idx = addLoop cmp x l (p / 2) (idx - ((p / 2 / 2 : Nat) : Int)) := by
  obtain ⟨k, rfl⟩ : ∃ k, p = k + 1 := ⟨p - 1, by omega⟩
  rw [addLoop, addLoopF, addLoop]
  have hc0 : cmp x (nthI l x idx) ≠ 0 := by omega
  have hcn : ¬ 0 < cmp x (nthI l x idx) := by omega
  simp only [if_pos h, if_neg hc0, if_neg hcn]
  exact addLoopF_irrel cmp x l k ((k + 1) / 2) _ (by omega)

theorem nthI_mem {α : Type} (l : List α) (d : α) (i : Int) (h0 : 0 ≤ i)
    (hlen : i < (l.length : Int)) : nthI l d i ∈ l := by
  rw [nthI, dif_pos ⟨h0, hlen⟩]
  exact List.get_mem l _ _

theorem addLoop_some_of_ne {α : Type} (cmp : α → α → Int) (x : α) (l : List α)
    (hne : ∀ y ∈ l, cmp x y ≠ 0) :
    ∀ (p : Nat) (idx : Int), ((p / 2 - 1 : Nat) : Int) ≤ idx →
      idx + ((p / 2 - 1 : Nat) : Int) < (l.length : Int) →
      ∃ r, addLoop cmp x l p idx = some r ∧
        idx - ((p / 2 - 1 : Nat) : Int) ≤ r ∧ r ≤ idx + ((p / 2 - 1 : Nat) : Int) := by
  intro p
  induction p using Nat.strong_induction_on with
  | _ p ih =>
    intro idx hlo hhi
    by_cases h1 : 1 < p
    · have hidx0 : 0 ≤ idx := le_trans (by positivity) hlo
      have hidxlen : idx < (l.length : Int) := by omega
      have hc := hne _ (nthI_mem l x idx hidx0 hidxlen)
      rcases lt_trichotomy (cmp x (nthI l x idx)) 0 with hlt | heq | hgt
      · rw [addLoop_lt _ _ _ _ _ h1 hlt]
        obtain ⟨r, hr, hr1, hr2⟩ :=
          ih (p / 2) (by omega) (idx - ((p / 2 / 2 : Nat) : Int)) (by omega) (by omega)
        exact ⟨r, hr, by omega, by omega⟩
      · exact absurd heq hc
      · rw [addLoop_gt _ _ _ _ _ h1 hgt]
        obtain ⟨r, hr, hr1, hr2⟩ :=
          ih (p / 2) (by omega) (idx + ((p / 2 / 2 : Nat) : Int)) (by omega) (by omega)
        exact ⟨r, hr, by omega, by omega⟩
    · rw [addLoop_stop _ _ _ _ _ h1]
      exact ⟨idx, rfl, by omega, by omega⟩

theorem scanLoopF_bounds {α : Type} (cmp : α → α → Int) (x : α) (l : List α) :
    ∀ (fuel : Nat) (idx : Int), 0 ≤ idx → idx ≤ (l.length : Int) →
      ((l.length : Int) - idx).toNat < fuel →
      idx ≤ scanLoopF cmp x l fuel idx ∧ scanLoopF cmp x l fuel idx ≤ (l.length : Int) := by
  intro fuel
  induction fuel with
  | zero => intro idx h0 hle hfuel; omega
  | succ f ihf =>
    intro idx h0 hle hfuel
    rw [scanLoopF]
    by_cases hlt : idx < (l.length : Int)
    · simp only [if_pos hlt]
      by_cases hcp : 0 < cmp x (nthI l x idx)
      · simp only [if_pos hcp]
        have := ihf (idx + 1) (by omega) (by omega) (by omega)
        exact ⟨by omega, this.2⟩
      · simp only [if_neg hcp]
        exact ⟨le_refl idx, by omega⟩
    · simp only [if_neg hlt]
      exact ⟨le_refl idx, by omega⟩

theorem scanLoopF_all_gt {α : Type} (cmp : α → α → Int) (x : α) (l : List α)
    (hgt : ∀ y ∈ l, 0 < cmp x y) :
    ∀ (fuel : Nat) (idx : Int), 0 ≤ idx → idx ≤ (l.length : Int) →
      ((l.length : Int) - idx).toNat < fuel →
      scanLoopF cmp x l fuel idx = (l.length : Int) := by
  intro fuel
  induction fuel with
  | zero => intro idx h0 hle hfuel; omega
  | succ f ihf =>
    intro idx h0 hle hfuel
    rw [scanLoopF]
    by_cases hlt : idx < (l.length : Int)
    · have hcp : 0 < cmp x (nthI l x idx) := hgt _ (nthI_mem l x idx h0 hlt)
      simp only [if_pos hlt, if_pos hcp]
      exact ihf (idx + 1) (by omega) (by omega) (by omega)
    · simp only [if_neg hlt]
      omega

theorem cset_add_true_insert {α : Type} (s : CSet α) (x : α)
    (hne : ∀ y ∈ s.elements, s.cmp_fn x y ≠ 0) :
    (cset_add s x).1 = true ∧
      ∃ i, i ≤ s.elements.length ∧ (cset_add s x).2.elements = insertAt s.elements x i := by
  have hr : ∃ r, addLoop s.cmp_fn x s.elements s.elements.length
      ((s.elements.length / 2 : Nat) : Int) = some r ∧ 0 ≤ r ∧ r ≤ (s.elements.length : Int) := by
    rcases Nat.eq_zero_or_pos s.elements.length with hn | hn
    · refine ⟨((s.elements.length / 2 : Nat) : Int), addLoop_stop _ _ _ _ _ (by omega), ?_, ?_⟩ <;>
        omega
    · obtain ⟨r, hr, hr1, hr2⟩ := addLoop_some_of_ne s.cmp_fn x s.elements hne
        s.elements.length ((s.elements.length / 2 : Nat) : Int) (by omega) (by omega)
      exact ⟨r, hr, by omega, by omega⟩
  obtain ⟨r, haddLoop, hr0, hrn⟩ := hr
  have hscan := scanLoopF_bounds s.cmp_fn x s.elements (s.elements.length + 1)
    (if r = 1 then 0 else r) (by split <;> omega) (by split <;> omega) (by split <;> omega)
  constructor
  · unfold cset_add
    dsimp only
    rw [haddLoop]
  · refine ⟨(scanLoop s.cmp_fn x s.elements (if r = 1 then 0 else r)).toNat, ?_, ?_⟩
    · rw [scanLoop]; omega
    · unfold cset_add
      dsimp only
      rw [haddLoop]
      dsimp only
      rw [check_resize_elements]

theorem insertAt_length {α : Type} (l : List α) (x : α) (i : Nat) (h : i ≤ l.length) :
    (insertAt l x i).length = l.length + 1 := by
  simp [insertAt]
  omega

theorem insertAt_perm {α : Type} (l : List α) (x : α) (i : Nat) :
    List.Perm (insertAt l x i) (x :: l) := by
  rw [insertAt]
  calc List.Perm (l.take i ++ x :: l.drop i) (x :: (l.take i ++ l.drop i)) := List.perm_middle
    _ = x :: l := by rw [List.take_append_drop]

theorem insertAt_length_self {α : Type} (l : List α) (x : α) :
    insertAt l x l.length = l ++ [x] := by
  simp [insertAt]

theorem cset_add_addLoop_some {α : Type} (s : CSet α) (x : α)
    (hne : ∀ y ∈ s.elements, s.cmp_fn x y ≠ 0) :
    ∃ r, addLoop s.cmp_fn x s.elements s.elements.length
        ((s.elements.length / 2 : Nat) : Int) = some r ∧
      0 ≤ r ∧ r ≤ (s.elements.length : Int) := by
  rcases Nat.eq_zero_or_pos s.elements.length with hn | hn
  · refine ⟨((s.elements.length / 2 : Nat) : Int), addLoop_stop _ _ _ _ _ (by omega), ?_, ?_⟩ <;>
      omega
  · obtain ⟨r, hr, hr1, hr2⟩ := addLoop_some_of_ne s.cmp_fn x s.elements hne
      s.elements.length ((s.elements.length / 2 : Nat) : Int) (by omega) (by omega)
    exact ⟨r, hr, by omega, by omega⟩

theorem cset_add_perm {α : Type} (s : CSet α) (x : α)
    (hne : ∀ y ∈ s.elements, s.cmp_fn x y ≠ 0) :
    (cset_add s x).1 = true ∧
      List.Perm ((cset_add s x).2).elements (x :: s.elements) ∧
      ((cset_add s x).2).elements.length = s.elements.length + 1 := by
  obtain ⟨htrue, i, hile, helems⟩ := cset_add_true_insert s x hne
  refine ⟨htrue, ?_, ?_⟩
  · rw [helems]; exact insertAt_perm s.elements x i
  · rw [helems, insertAt_length s.elements x i hile]

theorem cset_add_append_of_gt {α : Type} (s : CSet α) (x : α)
    (hgt : ∀ y ∈ s.elements, 0 < s.cmp_fn x y) :
    (cset_add s x).1 = true ∧ ((cset_add s x).2).elements = s.elements ++ [x] := by
  have hne : ∀ y ∈ s.elements, s.cmp_fn x y ≠ 0 := fun y hy => by have := hgt y hy; omega
  obtain ⟨r, haddLoop, hr0, hrn⟩ := cset_add_addLoop_some s x hne
  have hscan : scanLoop s.cmp_fn x s.elements (if r = 1 then 0 else r) =
      (s.elements.length : Int) := by
    rw [scanLoop]
    exact scanLoopF_all_gt s.cmp_fn x s.elements hgt (s.elements.length + 1)
      (if r = 1 then 0 else r) (by split <;> omega) (by split <;> omega) (by split <;> omega)
  constructor
  · unfold cset_add
    dsimp only
    rw [haddLoop]
  · unfold cset_add
    dsimp only
    rw [haddLoop]
    dsimp only
    rw [check_resize_elements, hscan]
    rw [show ((s.elements.length : Int)).toNat = s.elements.length from by omega]
    exact insertAt_length_self s.elements x

theorem lawful_zero_symm {α : Type} {cmp : α → α → Int} (hlaw : LawfulCmp cmp) {a b : α}
    (hab : cmp a b = 0) : cmp b a = 0 := by
  have h1 := hlaw.2.1 a b
  have h2 := hlaw.2.1 b a
  omega

theorem pairwise_of_chain {α : Type} {cmp : α → α → Int} (hlaw : LawfulCmp cmp) {l : List α}
    (hchain : List.Chain' (fun a b => cmp a b < 0) l) :
    List.Pairwise (fun a b => cmp a b < 0) l := by
  haveI : IsTrans α (fun a b => cmp a b < 0) := ⟨hlaw.2.2.1⟩
  exact List.chain'_iff_pairwise.mp hchain

theorem sorted_zero_eq {α : Type} {cmp : α → α → Int} (hlaw : LawfulCmp cmp) :
    ∀ {l : List α}, List.Pairwise (fun a b => cmp a b < 0) l →
      ∀ x ∈ l, ∀ y ∈ l, cmp x y = 0 → x = y := by
  intro l
  induction l with
  | nil => intro _ x hx; exact absurd hx (List.not_mem_nil x)
  | cons a t ih =>
    intro hpw x hx y hy h0
    rw [List.pairwise_cons] at hpw
    rcases List.mem_cons.mp hx with hxa | hxt
    · rcases List.mem_cons.mp hy with hya | hyt
      · rw [hxa, hya]
      · have h1 := hpw.1 y hyt
        rw [← hxa] at h1
        omega
    · rcases List.mem_cons.mp hy with hya | hyt
      · have h1 := hpw.1 x hxt
        rw [← hya] at h1
        have h2 := lawful_zero_symm hlaw h0
        omega
      · exact ih hpw.2 x hxt y hyt h0

theorem bsearchLoopF_some_of_mem {α : Type} {cmp : α → α → Int} {x : α} {l : List α}
    (hlaw : LawfulCmp cmp) (hpw : List.Pairwise (fun a b => cmp a b < 0) l) :
    ∀ (fuel lo hi j : Nat) (hj : j < l.length), hi ≤ l.length → hi - lo ≤ fuel →
      lo ≤ j → j < hi → cmp x (l.get ⟨j, hj⟩) = 0 →
      (bsearchLoopF cmp x l fuel lo hi).isSome = true := by
  have hget := List.pairwise_iff_get.mp hpw
  intro fuel
  induction fuel with
  | zero => intro lo hi j hj hhi hfuel hloj hjhi hcmp; omega
  | succ f ihf =>
    intro lo hi j hj hhi hfuel hloj hjhi hcmp
    have hlohi : lo < hi := by omega
    have hmid : (lo + hi) / 2 < l.length := by omega
    rw [bsearchLoopF]
    simp only [if_pos hlohi]
    rw [List.get?_eq_get hmid]
    dsimp only
    rcases lt_trichotomy (cmp x (l.get ⟨(lo + hi) / 2, hmid⟩)) 0 with hlt | heq | hgt
    · simp only [if_pos hlt]
      have hjmid : j < (lo + hi) / 2 := by
        rcases Nat.lt_trichotomy j ((lo + hi) / 2) with h | h | h
        · exact h
        · subst h
          have hcc : l.get ⟨(lo + hi) / 2, hj⟩ = l.get ⟨(lo + hi) / 2, hmid⟩ := rfl
          rw [hcc] at hcmp
          omega
        · have hp := hget ⟨(lo + hi) / 2, hmid⟩ ⟨j, hj⟩ h
          have hzx := lawful_zero_symm hlaw hcmp
          have h5 := hlaw.2.2.2.2 _ _ _ hp hzx
          have h6 := (hlaw.2.1 (l.get ⟨(lo + hi) / 2, hmid⟩) x).mp h5
          omega
      exact ihf lo ((lo + hi) / 2) j hj (by omega) (by omega) hloj hjmid hcmp
    · have h1 : ¬ cmp x (l.get ⟨(lo + hi) / 2, hmid⟩) < 0 := by omega
      have h2 : ¬ 0 < cmp x (l.get ⟨(lo + hi) / 2, hmid⟩) := by omega
      simp only [if_neg h1, if_neg h2, Option.isSome_some]
    · have h1 : ¬ cmp x (l.get ⟨(lo + hi) / 2, hmid⟩) < 0 := by omega
      simp only [if_neg h1, if_pos hgt]
      have hmidj : (lo + hi) / 2 < j := by
        rcases Nat.lt_trichotomy ((lo + hi) / 2) j with h | h | h
        · exact h
        · subst h
          have hcc : l.get ⟨(lo + hi) / 2, hj⟩ = l.get ⟨(lo + hi) / 2, hmid⟩ := rfl
          rw [hcc] at hcmp
          omega
        · have hp := hget ⟨j, hj⟩ ⟨(lo + hi) / 2, hmid⟩ h
          have h5 := hlaw.2.2.2.1 _ _ _ hcmp hp
          omega
      exact ihf ((lo + hi) / 2 + 1) hi j hj hhi (by omega) (by omega) hjhi hcmp

theorem cset_contains_of_mem {α : Type} (s : CSet α) (y : α) (hlaw : LawfulCmp s.cmp_fn)
    (hchain : List.Chain' (fun a b => s.cmp_fn a b < 0) s.elements)
    (hy : y ∈ s.elements) : cset_contains s y = true := by
  obtain ⟨j, hjy⟩ := List.mem_iff_get.mp hy
  have hcmp : s.cmp_fn y (s.elements.get ⟨j.1, j.2⟩) = 0 := by
    have hgy : s.elements.get ⟨j.1, j.2⟩ = y := hjy
    rw [hgy]
    exact hlaw.1 y
  rw [cset_contains, bsearchIdx, bsearchLoop]
  exact bsearchLoopF_some_of_mem hlaw (pairwise_of_chain hlaw hchain)
    (s.elements.length - 0) 0 s.elements.length j.1 j.2 (Nat.le_refl _) (by omega)
    (by omega) j.2 hcmp

theorem cmpElems_ne {α : Type} (cmp : α → α → Int) :
    ∀ (l1 l2 : List α), (∀ x ∈ l1, ∀ y ∈ l2, cmp x y = 0 → x = y) →
      l1.length = l2.length → l1 ≠ l2 → cmpElems cmp l1 l2 ≠ 0 := by
  intro l1
  induction l1 with
  | nil =>
    intro l2 _ hlen hne
    exact absurd (List.length_eq_zero.mp hlen.symm).symm hne
  | cons x xs ih =>
    intro l2 heqz hlen hne
    cases l2 with
    | nil => simp at hlen
    | cons y ys =>
      rw [cmpElems]
      by_cases hc : cmp x y = 0
      · have hxy : x = y := heqz x (List.mem_cons_self x xs) y (List.mem_cons_self y ys) hc
        simp only [hc]
        simp
        exact ih ys (fun u hu v hv => heqz u (List.mem_cons_of_mem x hu) v
            (List.mem_cons_of_mem y hv))
          (by simpa using hlen) (by subst hxy; intro hEq; exact hne (by rw [hEq]))
      · simp [hc]

theorem selectBits_subset {α : Type} : ∀ (l : List α) (b : Nat), ∀ y ∈ selectBits b l, y ∈ l := by
  intro l
  induction l with
  | nil => intro b y hy; exact absurd hy (by rw [selectBits]; exact List.not_mem_nil y)
  | cons x xs ih =>
    intro b y hy
    rw [selectBits] at hy
    by_cases hb : b % 2 = 1
    · rw [if_pos hb] at hy
      rcases List.mem_cons.mp hy with rfl | hy2
      · exact List.mem_cons_self y xs
      · exact List.mem_cons_of_mem x (ih (b / 2) y hy2)
    · rw [if_neg hb] at hy
      exact List.mem_cons_of_mem x (ih (b / 2) y hy)

theorem selectBits_ne_nil {α : Type} :
    ∀ (l : List α) (b : Nat), 1 ≤ b → b < 2 ^ l.length → selectBits b l ≠ [] := by
  intro l
  induction l with
  | nil => intro b h1 h2; simp at h2; omega
  | cons x xs ih =>
    intro b h1 h2
    have hpow : 2 ^ (x :: xs).length = 2 * 2 ^ xs.length := by
      rw [List.length_cons, pow_succ]; ring
    rw [selectBits]
    by_cases hb : b % 2 = 1
    · rw [if_pos hb]; exact List.cons_ne_nil x _
    · rw [if_neg hb]
      exact ih (b / 2) (by omega) (by omega)

theorem selectBits_inj {α : Type} {cmp : α → α → Int} (hlaw : LawfulCmp cmp) :
    ∀ (l : List α), List.Pairwise (fun a b => cmp a b < 0) l →
      ∀ (b1 b2 : Nat), b1 < 2 ^ l.length → b2 < 2 ^ l.length →
        selectBits b1 l = selectBits b2 l → b1 = b2 := by
  intro l
  induction l with
  | nil => intro _ b1 b2 h1 h2 _; simp at h1 h2; omega
  | cons x xs ih =>
    intro hpw b1 b2 h1 h2 hEq
    rw [List.pairwise_cons] at hpw
    have hpow : 2 ^ (x :: xs).length = 2 * 2 ^ xs.length := by
      rw [List.length_cons, pow_succ]; ring
    rw [selectBits, selectBits] at hEq
    by_cases p1 : b1 % 2 = 1 <;> by_cases p2 : b2 % 2 = 1
    · rw [if_pos p1, if_pos p2] at hEq
      have htail := (List.cons.injEq x _ x _).mp hEq
      have := ih hpw.2 (b1 / 2) (b2 / 2) (by omega) (by omega) htail.2
      omega
    · rw [if_pos p1, if_neg p2] at hEq
      have hxmem : x ∈ selectBits (b2 / 2) xs := by
        rw [← hEq]; exact List.mem_cons_self x _
      have hxxs := selectBits_subset xs (b2 / 2) x hxmem
      have := hpw.1 x hxxs
      have := hlaw.1 x
      omega
    · rw [if_neg p1, if_pos p2] at hEq
      have hxmem : x ∈ selectBits (b1 / 2) xs := by
        rw [hEq]; exact List.mem_cons_self x _
      have hxxs := selectBits_subset xs (b1 / 2) x hxmem
      have := hpw.1 x hxxs
      have := hlaw.1 x
      omega
    · rw [if_neg p1, if_neg p2] at hEq
      have := ih hpw.2 (b1 / 2) (b2 / 2) (by omega) (by omega) hEq
      omega

theorem subset_fold {α : Type} (cmp : α → α → Int) (bv : Nat) :
    ∀ (l : List α) (k : Nat) (acc : CSet α),
      acc.cmp_fn = cmp →
      (∀ y ∈ l, ∀ z ∈ acc.elements, cmp z y < 0) →
      (∀ a b, cmp a b < 0 → 0 < cmp b a) →
      List.Pairwise (fun a b => cmp a b < 0) l →
      ((List.enumFrom k l).foldl
          (fun sub p => if (bv >>> p.1) &&& 1 = 1 then (cset_add sub p.2).2 else sub)
          acc).elements = acc.elements ++ selectBits (bv >>> k) l ∧
        ((List.enumFrom k l).foldl
          (fun sub p => if (bv >>> p.1) &&& 1 = 1 then (cset_add sub p.2).2 else sub)
          acc).cmp_fn = cmp ∧
        ((List.enumFrom k l).foldl
          (fun sub p => if (bv >>> p.1) &&& 1 = 1 then (cset_add sub p.2).2 else sub)
          acc).elemsz = acc.elemsz := by
  intro l
  induction l with
  | nil =>
    intro k acc hcmp hgt hflip hpw
    rw [List.enumFrom_nil, List.foldl_nil, selectBits, List.append_nil]
    exact ⟨rfl, hcmp, rfl⟩
  | cons x xs ih =>
    intro k acc hcmp hgt hflip hpw
    rw [List.pairwise_cons] at hpw
    rw [List.enumFrom_cons, List.foldl_cons]
    have hsucc : bv >>> (k + 1) = (bv >>> k) / 2 := Nat.shiftRight_succ bv k
    by_cases hbit : (bv >>> k) &&& 1 = 1
    · simp only [if_pos hbit]
      have hgtx : ∀ z ∈ acc.elements, 0 < acc.cmp_fn x z := by
        intro z hz
        rw [hcmp]
        exact hflip z x (hgt x (List.mem_cons_self x xs) z hz)
      obtain ⟨-, helems⟩ := cset_add_append_of_gt acc x hgtx
      have hrec := ih (k + 1) (cset_add acc x).2 (by rw [cset_add_cmp_fn, hcmp])
        (by intro y hy z hz
            rw [helems] at hz
            rcases List.mem_append.mp hz with hz1 | hz2
            · exact hgt y (List.mem_cons_of_mem x hy) z hz1
            · rw [List.mem_singleton.mp hz2]
              exact hpw.1 y hy)
        hflip hpw.2
      refine ⟨?_, hrec.2.1, ?_⟩
      · rw [hrec.1, helems, selectBits]
        have hmod : (bv >>> k) % 2 = 1 := by
          rw [← Nat.and_one_is_mod]; exact hbit
        rw [if_pos hmod, ← hsucc]
        simp
      · rw [hrec.2.2, cset_add_elemsz]
    · simp only [if_neg hbit]
      have hrec := ih (k + 1) acc hcmp
        (fun y hy => hgt y (List.mem_cons_of_mem x hy)) hflip hpw.2
      refine ⟨?_, hrec.2.1, hrec.2.2⟩
      rw [hrec.1, selectBits]
      have hmod : ¬ (bv >>> k) % 2 = 1 := by
        rw [← Nat.and_one_is_mod]; exact hbit
      rw [if_neg hmod, ← hsucc]

theorem subsetOfBits_spec {α : Type} (s : CSet α) (hlaw : LawfulCmp s.cmp_fn)
    (hpw : List.Pairwise (fun a b => s.cmp_fn a b < 0) s.elements) (bv : Nat) :
    (subsetOfBits s bv).elements = selectBits bv s.elements ∧
      (subsetOfBits s bv).cmp_fn = s.cmp_fn ∧ (subsetOfBits s bv).elemsz = s.elemsz := by
  unfold subsetOfBits
  have h := subset_fold s.cmp_fn bv s.elements 0
    (cset_create s.elemsz (popcount bv) s.cmp_fn s.has_cleanup s.toString_fn) rfl
    (by intro y _ z hz; exact absurd hz (List.not_mem_nil z))
    (fun a b hab => (hlaw.2.1 a b).mp hab) hpw
  rw [show s.elements.enum = List.enumFrom 0 s.elements from rfl]
  rw [Nat.shiftRight_zero] at h
  exact ⟨by rw [h.1]; rfl, h.2.1, h.2.2⟩

theorem cset_compare_ne_subsets {α : Type} (s : CSet α) (hlaw : LawfulCmp s.cmp_fn)
    (hpw : List.Pairwise (fun a b => s.cmp_fn a b < 0) s.elements) (b1 b2 : Nat)
    (h1 : b1 < 2 ^ s.elements.length) (h2 : b2 < 2 ^ s.elements.length) (hne : b1 ≠ b2) :
    cset_compare (subsetOfBits s b1) (subsetOfBits s b2) ≠ 0 := by
  obtain ⟨he1, hc1, hz1⟩ := subsetOfBits_spec s hlaw hpw b1
  obtain ⟨he2, -, hz2⟩ := subsetOfBits_spec s hlaw hpw b2
  rw [cset_compare]
  by_cases hlen : (subsetOfBits s b1).elements.length = (subsetOfBits s b2).elements.length
  · rw [if_neg (by omega), if_neg (by rw [hz1, hz2]; omega)]
    rw [hc1, he1, he2]
    apply cmpElems_ne
    · intro u hu v hv h0
      exact sorted_zero_eq hlaw hpw u (selectBits_subset _ _ _ hu) v
        (selectBits_subset _ _ _ hv) h0
    · rw [← he1, ← he2]; exact hlen
    · intro hsame
      exact hne (selectBits_inj hlaw s.elements hpw b1 b2 h1 h2 hsame)
  · rw [if_pos (by omega)]
    have : ((subsetOfBits s b1).elements.length : Int) ≠
        ((subsetOfBits s b2).elements.length : Int) := by omega
    omega

theorem cset_compare_ne_empty {α : Type} (s : CSet α) (hlaw : LawfulCmp s.cmp_fn)
    (hpw : List.Pairwise (fun a b => s.cmp_fn a b < 0) s.elements) (b : Nat)
    (hb1 : 1 ≤ b) (hb2 : b < 2 ^ s.elements.length) (e : CSet α) (he : e.elements = []) :
    cset_compare (subsetOfBits s b) e ≠ 0 := by
  obtain ⟨he1, -, -⟩ := subsetOfBits_spec s hlaw hpw b
  have hnil := selectBits_ne_nil s.elements b hb1 hb2
  have hlen : (subsetOfBits s b).elements.length ≠ e.elements.length := by
    rw [he1, he]
    simp only [List.length_nil]
    intro hzero
    exact hnil (List.length_eq_zero.mp hzero)
  rw [cset_compare, if_pos hlen]
  have : ((subsetOfBits s b).elements.length : Int) ≠ (e.elements.length : Int) := by
    omega
  omega

theorem pset_fold_spec {α : Type} (s : CSet α) (hlaw : LawfulCmp s.cmp_fn)
    (hpw : List.Pairwise (fun a b => s.cmp_fn a b < 0) s.elements) :
    ∀ k, k ≤ 2 ^ s.elements.length - 1 →
      List.Perm (((List.range' 1 k).foldl (fun ps bv => (cset_add ps (subsetOfBits s bv)).2)
          ((cset_add (cset_create ptrSize (2 ^ s.elements.length) cset_compare true
            (some cset_genericToString))
            (cset_create s.elemsz 1 s.cmp_fn s.has_cleanup s.toString_fn)).2)).elements)
        (cset_create s.elemsz 1 s.cmp_fn s.has_cleanup s.toString_fn ::
          (List.range' 1 k).map (subsetOfBits s)) ∧
      ((List.range' 1 k).foldl (fun ps bv => (cset_add ps (subsetOfBits s bv)).2)
          ((cset_add (cset_create ptrSize (2 ^ s.elements.length) cset_compare true
            (some cset_genericToString))
            (cset_create s.elemsz 1 s.cmp_fn s.has_cleanup s.toString_fn)).2)).cmp_fn =
        cset_compare := by
  have h2n : 1 ≤ 2 ^ s.elements.length := Nat.one_le_two_pow
  have hp1 : ((cset_add (cset_create ptrSize (2 ^ s.elements.length) cset_compare true
      (some cset_genericToString))
      (cset_create s.elemsz 1 s.cmp_fn s.has_cleanup s.toString_fn)).2).elements =
      [cset_create s.elemsz 1 s.cmp_fn s.has_cleanup s.toString_fn] := by
    have := (cset_add_append_of_gt (cset_create ptrSize (2 ^ s.elements.length) cset_compare
      true (some cset_genericToString))
      (cset_create s.elemsz 1 s.cmp_fn s.has_cleanup s.toString_fn)
      (by intro y hy; exact absurd hy (List.not_mem_nil y))).2
    simpa using this
  have hp1cmp : ((cset_add (cset_create ptrSize (2 ^ s.elements.length) cset_compare true
      (some cset_genericToString))
      (cset_create s.elemsz 1 s.cmp_fn s.has_cleanup s.toString_fn)).2).cmp_fn =
      cset_compare := by
    rw [cset_add_cmp_fn]
    rfl
  intro k
  induction k with
  | zero =>
    intro _
    rw [List.range'_zero, List.foldl_nil, List.map_nil, hp1]
    exact ⟨List.Perm.refl _, hp1cmp⟩
  | succ k ihk =>
    intro hk
    obtain ⟨hperm, hcmpf⟩ := ihk (by omega)
    rw [List.range'_1_concat 1 k, List.foldl_append, List.foldl_cons, List.foldl_nil,
      List.map_append, List.map_cons, List.map_nil]
    have hall : ∀ y ∈ ((List.range' 1 k).foldl
        (fun ps bv => (cset_add ps (subsetOfBits s bv)).2)
        ((cset_add (cset_create ptrSize (2 ^ s.elements.length) cset_compare true
          (some cset_genericToString))
          (cset_create s.elemsz 1 s.cmp_fn s.has_cleanup s.toString_fn)).2)).elements,
        ((List.range' 1 k).foldl (fun ps bv => (cset_add ps (subsetOfBits s bv)).2)
          ((cset_add (cset_create ptrSize (2 ^ s.elements.length) cset_compare true
            (some cset_genericToString))
            (cset_create s.elemsz 1 s.cmp_fn s.has_cleanup s.toString_fn)).2)).cmp_fn
          (subsetOfBits s (1 + k)) y ≠ 0 := by
      intro y hy
      rw [hcmpf]
      rcases List.mem_cons.mp (hperm.mem_iff.mp hy) with hye | hy2
      · rw [hye]
        exact cset_compare_ne_empty s hlaw hpw (1 + k) (by omega) (by omega) _ rfl
      · obtain ⟨bv2, hbv2, hbveq⟩ := List.mem_map.mp hy2
        rw [← hbveq]
        have hbvr := List.mem_range'_1.mp hbv2
        exact cset_compare_ne_subsets s hlaw hpw (1 + k) bv2 (by omega) (by omega) (by omega)
    obtain ⟨-, haddperm, -⟩ := cset_add_perm _ (subsetOfBits s (1 + k)) hall
    refine ⟨haddperm.trans ?_, by rw [cset_add_cmp_fn]; exact hcmpf⟩
    refine (List.Perm.cons _ hperm).trans ?_
    refine (List.Perm.swap _ _ _).trans ?_
    refine List.Perm.cons _ ?_
    exact (List.perm_append_singleton (subsetOfBits s (1 + k))
      ((List.range' 1 k).map (subsetOfBits s))).symm

/-- C7: for a set `S` obeying the data-model invariant (strictly sorted
elements) with a lawful comparator, `cset_powerSet(S)` holds exactly
`2 ^ size(S)` element sets, every one of them satisfies
`cset_isSubsetOf(subset, S)`, and the empty set (created first with
capacity hint 1 and `S`'s capability triple) is among them.  The count
does not depend on the enumeration order: every generated subset is
distinct from all earlier ones under `cset_compare`, so each of the
`2 ^ n - 1` `cset_add` calls (plus the empty set) grows the count by
exactly one. -/
theorem C7_powerSet_card_subsets_empty {α : Type} (s : CSet α) (hlaw : LawfulCmp s.cmp_fn)
    (hsorted : List.Chain' (fun a b => s.cmp_fn a b < 0) s.elements) :
    (cset_powerSet s).elements.length = 2 ^ s.elements.length ∧
      (∀ t ∈ (cset_powerSet s).elements, cset_isSubsetOf t s = true) ∧
      cset_create s.elemsz 1 s.cmp_fn s.has_cleanup s.toString_fn ∈
        (cset_powerSet s).elements := by
  have h2n : 1 ≤ 2 ^ s.elements.length := Nat.one_le_two_pow
  have hpw := pairwise_of_chain hlaw hsorted
  obtain ⟨hperm, -⟩ := pset_fold_spec s hlaw hpw (2 ^ s.elements.length - 1) (le_refl _)
  have hps : cset_powerSet s = (List.range' 1 (2 ^ s.elements.length - 1)).foldl
      (fun ps bv => (cset_add ps (subsetOfBits s bv)).2)
      ((cset_add (cset_create ptrSize (2 ^ s.elements.length) cset_compare true
        (some cset_genericToString))
        (cset_create s.elemsz 1 s.cmp_fn s.has_cleanup s.toString_fn)).2) := rfl
  rw [hps]
  refine ⟨?_, ?_, ?_⟩
  · rw [hperm.length_eq]
    rw [List.length_cons, List.length_map, List.length_range']
    omega
  · intro t ht
    rcases List.mem_cons.mp (hperm.mem_iff.mp ht) with hte | hmap
    · rw [hte, cset_isSubsetOf]
      rfl
    · obtain ⟨bv, -, hbveq⟩ := List.mem_map.mp hmap
      rw [← hbveq, cset_isSubsetOf, List.all_eq_true]
      intro y hy
      have hy' : y ∈ s.elements := by
        rw [(subsetOfBits_spec s hlaw hpw bv).1] at hy
        exact selectBits_subset _ _ _ hy
      exact cset_contains_of_mem s y hlaw hsorted hy'
  · exact hperm.mem_iff.mpr (List.mem_cons_self _ _)

/-- C7 witness: on the spec's example S = {1, 2} (with the int
comparator), the power set has 2 ^ 2 = 4 elements, each a subset of S,
and contains the empty set. -/
theorem C7_powerSet_card_subsets_empty_witness :
    ((cset_powerSet (⟨[1, 2], 4, 4, intCmp, false, none⟩ : CSet Int)).elements.length =
        2 ^ ([1, 2] : List Int).length) ∧
      (∀ t ∈ (cset_powerSet (⟨[1, 2], 4, 4, intCmp, false, none⟩ : CSet Int)).elements,
        cset_isSubsetOf t (⟨[1, 2], 4, 4, intCmp, false, none⟩ : CSet Int) = true) ∧
      cset_create 4 1 intCmp false none ∈
        (cset_powerSet (⟨[1, 2], 4, 4, intCmp, false, none⟩ : CSet Int)).elements :=
  C7_powerSet_card_subsets_empty (⟨[1, 2], 4, 4, intCmp, false, none⟩ : CSet Int)
    ⟨fun a => by simp [intCmp],
      fun a b => by simp only [intCmp]; omega,
      fun a b c => by simp only [intCmp]; omega,
      fun a b c => by simp only [intCmp]; omega,
      fun a b c => by simp only [intCmp]; omega⟩
    (by norm_num [List.chain'_cons, List.chain'_singleton, intCmp])
